import Mathlib

/-!
Verification of the kepler CPE 2.3 parser/matcher and query pipeline.

Strings are modelled as `List Char`. The external `version_compare` crate is
abstracted as an oracle `compare_to : List Char → List Char → Cmp → Option Bool`
(`none` models `Err`), and Rust's Unicode `char::is_alphanumeric` as an oracle
`ia : Char → Bool`; every repository function is embedded concretely on top of
these oracles, following the Rust source line by line.
-/

/-- The `version_compare::Cmp` operators used by the repository. -/
inductive Cmp where
  | Ge
  | Gt
  | Le
  | Lt
  | Eq
  | Ne
deriving DecidableEq

/-- `version_cmp` from `src/domain-db/src/sources/mod.rs` (identical wrapper in
`src/domain-db/src/cve_sources/mod.rs` and `src/src/utils/mod.rs`): forwards to
the external comparator and returns `false` (after logging) when the comparison
errors. `compare_to a b op = none` models `Err(_)`. -/
def version_cmp (compare_to : List Char → List Char → Cmp → Option Bool)
    (a b : List Char) (operator : Cmp) : Bool :=
  match compare_to a b operator with
  | some res => res
  | none => false

/-- Structured rendering of the error strings produced by the CPE parsers. -/
inductive ParseErr where
  /-- "invalid prefix" (src/cpe/src/lib.rs) -/
  | invalidPre
  /-- "invalid version string" -/
  | invalidVersionString
  /-- "No chars for type" -/
  | noCharsForType
  /-- "could not convert '<c>' to cpe type" -/
  | couldNotConvert (c : Char)
  /-- "expected 'cpe' found '<tok>'" (src/domain-db/src/sources/nist/cpe/mod.rs) -/
  | expectedCpe (tok : List Char)
  /-- "expected cpe v2.3, found v<tok>" (src/domain-db/src/sources/nist/cpe/mod.rs) -/
  | expectedV23 (tok : List Char)
deriving DecidableEq

/-- `Component` from `src/cpe/src/component.rs` (same type in
`src/domain-db/src/sources/nist/cpe/component.rs`). -/
inductive Component where
  | Any
  | NotApplicable
  | Value (v : List Char)
deriving DecidableEq

/-- The total match inside `Component::from_str`: `"*"` ↦ `Any`, `"-"` ↦
`NotApplicable`, anything else ↦ `Value`. -/
def Component.parse (val : List Char) : Component :=
  if val = "*".toList then Component.Any
  else if val = "-".toList then Component.NotApplicable
  else Component.Value val

/-- `Component::from_str` from `src/cpe/src/component.rs`: always `Ok`. -/
def Component.from_str (val : List Char) : Except ParseErr Component :=
  Except.ok (Component.parse val)

/-- The `fmt::Display` impl for `Component`. -/
def Component.render : Component → List Char
  | Component.Any => "*".toList
  | Component.NotApplicable => "-".toList
  | Component.Value v => v

/-- `CpeType` from `src/cpe/src/types.rs` (called `Type` in
`src/domain-db/src/sources/nist/cpe/types.rs`). -/
inductive CpeType where
  | Any
  | Hardware
  | OperatingSystem
  | Application
deriving DecidableEq

/-- `CpeType::from_str` from `src/cpe/src/types.rs`: `"ANY"` is the sentinel,
otherwise the first character decides (`h`/`o`/`a`), empty input errors. -/
def CpeType.from_str (val : List Char) : Except ParseErr CpeType :=
  if val = "ANY".toList then Except.ok CpeType.Any
  else
    match val with
    | [] => Except.error ParseErr.noCharsForType
    | c :: _ =>
      if c = 'h' then Except.ok CpeType.Hardware
      else if c = 'o' then Except.ok CpeType.OperatingSystem
      else if c = 'a' then Except.ok CpeType.Application
      else Except.error (ParseErr.couldNotConvert c)

/-- The alternate (`{:#}`) rendering of `CpeType` used by `CPE23`'s `Display`:
`Any` renders as `*`, the rest as their single letter. -/
def CpeType.renderAlt : CpeType → List Char
  | CpeType.Any => "*".toList
  | CpeType.Hardware => "h".toList
  | CpeType.OperatingSystem => "o".toList
  | CpeType.Application => "a".toList

/-- `CPE23` from `src/cpe/src/lib.rs` (the same struct appears in
`src/domain-db/src/sources/nist/cpe/mod.rs`). -/
structure CPE23 where
  what : CpeType
  vendor : Component
  product : Component
  version : Component
  update : Component
  edition : Component
  language : Component
  sw_edition : Component
  target_sw : Component
  target_hw : Component
  other : Component
deriving DecidableEq

/-- Rust `str::split(c)`: splits at every separator; the result is never empty
(splitting the empty string yields `[[]]`). -/
def splitOnChar (c : Char) : List Char → List (List Char)
  | [] => [[]]
  | x :: xs =>
    match splitOnChar c xs with
    | [] => [[]]
    | h :: t => if x = c then [] :: h :: t else (x :: h) :: t

/-- Rust `str::strip_prefix`: `some` of the remainder when `s` starts with
`pre`, `none` otherwise. Case-sensitive. -/
def stripPre : List Char → List Char → Option (List Char)
  | [], s => some s
  | _ :: _, [] => none
  | p :: ps, c :: cs => if c = p then stripPre ps cs else none

/-- The literal prefix `cpe:2.3:` stripped by `CPE23::from_str` in
`src/cpe/src/lib.rs`. -/
def cpe23Pre : List Char := "cpe:2.3:".toList

/-- The eleven sequential `components.next()` calls of `CPE23::from_str`
(`src/cpe/src/lib.rs` lines 50-104), applied to the list produced by
`split(':')`. The first element is parsed as the `CpeType` before the second
`next()` is attempted, so a bad type field errors before a missing-field error;
every missing field yields "invalid version string". `Component::try_from`
never fails, so the remaining ten fields are taken verbatim; fields past the
eleventh are never requested from the iterator and are ignored, exactly as in
the source. -/
def parseComps : List (List Char) → Except ParseErr CPE23
  | [] => Except.error ParseErr.invalidVersionString
  | what :: comps =>
    match CpeType.from_str what with
    | Except.error e => Except.error e
    | Except.ok w =>
      match comps with
      | vendor :: product :: version :: update :: edition :: language ::
          sw_edition :: target_sw :: target_hw :: other :: _ =>
        Except.ok
          { what := w
            vendor := Component.parse vendor
            product := Component.parse product
            version := Component.parse version
            update := Component.parse update
            edition := Component.parse edition
            language := Component.parse language
            sw_edition := Component.parse sw_edition
            target_sw := Component.parse target_sw
            target_hw := Component.parse target_hw
            other := Component.parse other }
      | _ => Except.error ParseErr.invalidVersionString

/-- `CPE23::from_str` from `src/cpe/src/lib.rs` (lines 42-120): strip the
literal prefix `cpe:2.3:` (case-sensitively, via `strip_prefix`), split the
remainder on `:` and read eleven fields. -/
def CPE23.from_str (uri : List Char) : Except ParseErr CPE23 :=
  match stripPre cpe23Pre uri with
  | none => Except.error ParseErr.invalidPre
  | some rest => parseComps (splitOnChar ':' rest)

/-- The `fmt::Display` impl for `CPE23` (`src/cpe/src/lib.rs` lines 122-142):
`cpe:2.3:` followed by the alternate form of the type and the ten components,
colon-separated. -/
def CPE23.render (c : CPE23) : List Char :=
  cpe23Pre ++
    (c.what.renderAlt ++ ':' :: c.vendor.render ++ ':' :: c.product.render ++
      ':' :: c.version.render ++ ':' :: c.update.render ++
      ':' :: c.edition.render ++ ':' :: c.language.render ++
      ':' :: c.sw_edition.render ++ ':' :: c.target_sw.render ++
      ':' :: c.target_hw.render ++ ':' :: c.other.render)

/-- Rust `str::find`-style first split: `some (before, after)` at the first
occurrence of `c`, `none` when `c` does not occur. Helper for `splitnChar`. -/
def breakAtChar (c : Char) : List Char → Option (List Char × List Char)
  | [] => none
  | x :: xs =>
    if x = c then some ([], xs)
    else
      match breakAtChar c xs with
      | none => none
      | some (a, b) => some (x :: a, b)

/-- Rust `str::splitn(n, c)`: at most `n` pieces, the last piece keeps the
remaining separators unsplit. -/
def splitnChar (c : Char) : Nat → List Char → List (List Char)
  | 0, _ => []
  | 1, s => [s]
  | n + 2, s =>
    match breakAtChar c s with
    | none => [s]
    | some (a, b) => a :: splitnChar c (n + 1) b

/-- `CPE23::from_str` from `src/domain-db/src/sources/nist/cpe/mod.rs`
(lines 42-109): `splitn(13, ':')`, thirteen `next()` calls each failing with
"invalid version string", then the `cpe`/`CPE` token check, the `2.3` literal
check, and the component parses. A thirteenth piece swallows any further
colons, so extra fields are folded into the last component. -/
def CPE23.from_str_sources (val : List Char) : Except ParseErr CPE23 :=
  match splitnChar ':' 13 val with
  | cpe :: ver :: what :: vendor :: product :: version :: update :: edition ::
      language :: sw_edition :: target_sw :: target_hw :: other :: _ =>
    if cpe ≠ "cpe".toList ∧ cpe ≠ "CPE".toList then
      Except.error (ParseErr.expectedCpe cpe)
    else if ver ≠ "2.3".toList then
      Except.error (ParseErr.expectedV23 ver)
    else
      match CpeType.from_str what with
      | Except.error e => Except.error e
      | Except.ok w =>
        Except.ok
          { what := w
            vendor := Component.parse vendor
            product := Component.parse product
            version := Component.parse version
            update := Component.parse update
            edition := Component.parse edition
            language := Component.parse language
            sw_edition := Component.parse sw_edition
            target_sw := Component.parse target_sw
            target_hw := Component.parse target_hw
            other := Component.parse other }
  | _ => Except.error ParseErr.invalidVersionString

/-- Colon-joining of fields, the inverse of splitting; used to state the
parser claims. -/
def joinColon : List (List Char) → List Char
  | [] => []
  | [f] => f
  | f :: g :: rest => f ++ ':' :: joinColon (g :: rest)

/-- Decidable `Except.ok` test, for stating that a parse succeeded. -/
def isOkE {α : Type} (r : Except ParseErr α) : Bool :=
  match r with
  | Except.ok _ => true
  | Except.error _ => false

/-- `normalize_target_software` from
`src/domain-db/src/cve_sources/nist/cve/node.rs` (lines 122-132, same function
in `src/domain-db/src/sources/nist/cpe/mod.rs`): push characters while they
are alphanumeric, break at the first one that is not. Rust's Unicode
`char::is_alphanumeric` is the oracle `ia`. -/
def normalize_target_software (ia : Char → Bool) : List Char → List Char
  | [] => []
  | c :: rest =>
    if ia c then c :: normalize_target_software ia rest
    else []

/-- `cpe23_product_match` from `src/domain-db/src/cve_sources/nist/cve/node.rs`
(lines 88-105), identical to `CPE23::is_product_match` in
`src/domain-db/src/sources/nist/cpe/mod.rs` (lines 125-146): wildcard product
always matches, not-applicable never; a literal product is compared against
the query after an optional `target_sw` composition
`norm(target_sw)-product`. -/
def cpe23_product_match (ia : Char → Bool) (cpe : CPE23) (product : List Char) :
    Bool :=
  match cpe.product with
  | Component.Any => true
  | Component.NotApplicable => false
  | Component.Value _ =>
    let my_product :=
      match cpe.target_sw with
      | Component.Value software =>
        normalize_target_software ia software ++ '-' :: cpe.product.render
      | _ => cpe.product.render
    decide (product = my_product)

/-- `cpe23_version_match` from `src/domain-db/src/cve_sources/nist/cve/node.rs`
(lines 107-120), identical to `CPE23::is_version_match` in
`src/domain-db/src/sources/nist/cpe/mod.rs`: wildcard version always matches,
not-applicable never; a literal version is compared for equality after an
optional space-joined `update` qualifier. -/
def cpe23_version_match (vc : List Char → List Char → Cmp → Option Bool)
    (cpe : CPE23) (version : List Char) : Bool :=
  match cpe.version with
  | Component.Any => true
  | Component.NotApplicable => false
  | Component.Value _ =>
    let my_version :=
      match cpe.update with
      | Component.Value _ => cpe.version.render ++ ' ' :: cpe.update.render
      | _ => cpe.version.render
    version_cmp vc version my_version Cmp.Eq

/-- `Match` from `src/domain-db/src/cve_sources/nist/cve/node.rs` (lines
11-28): one CPE predicate plus the four optional version-range bounds. -/
structure Match where
  vulnerable : Bool
  cpe23 : CPE23
  version_start_including : Option (List Char)
  version_start_excluding : Option (List Char)
  version_end_including : Option (List Char)
  version_end_excluding : Option (List Char)
deriving DecidableEq

/-- `Match::has_version_range` (node.rs lines 31-36). -/
def Match.has_version_range (m : Match) : Bool :=
  m.version_start_including.isSome || m.version_start_excluding.isSome ||
    m.version_end_including.isSome || m.version_end_excluding.isSome

/-- `Match::version_range_matches` (node.rs lines 38-64): four sequential
`if let Some(bound) = … { if !version_cmp(…) { return false; } }` blocks and a
final `true`; each conjunct below is one block (`Option.all` is `true` on
`none`), with the same short-circuit order. -/
def Match.version_range_matches (vc : List Char → List Char → Cmp → Option Bool)
    (m : Match) (ver : List Char) : Bool :=
  (m.version_start_including.all fun start_inc => version_cmp vc ver start_inc Cmp.Ge) &&
    (m.version_start_excluding.all fun start_exc => version_cmp vc ver start_exc Cmp.Gt) &&
    (m.version_end_including.all fun end_inc => version_cmp vc ver end_inc Cmp.Le) &&
    (m.version_end_excluding.all fun end_exc => version_cmp vc ver end_exc Cmp.Lt)

/-- `Match::is_match` (node.rs lines 73-86, same body via the parsed CPE in
`src/domain-db/src/sources/nist/cve/node.rs` lines 78-93): the product must
match; then the version range decides when one is present, otherwise the plain
CPE version comparison. The `vulnerable` field is never read. -/
def Match.is_match (vc : List Char → List Char → Cmp → Option Bool)
    (ia : Char → Bool) (m : Match) (product version : List Char) : Bool :=
  if cpe23_product_match ia m.cpe23 product then
    if m.has_version_range then m.version_range_matches vc version
    else cpe23_version_match vc m.cpe23 version
  else false

/-- `Operator` from node.rs. -/
inductive Operator where
  | And
  | Or
deriving DecidableEq

/-- `Node` from node.rs (lines 147-152): an AND/OR tree whose leaves carry
`cpe_match` predicates. -/
inductive Node where
  | mk (operator : Operator) (children : List Node) (cpe_match : List Match)

/-- Field accessor mirroring `self.operator`. -/
def Node.operator : Node → Operator
  | Node.mk op _ _ => op

/-- Field accessor mirroring `self.children`. -/
def Node.children : Node → List Node
  | Node.mk _ ch _ => ch

/-- Field accessor mirroring `self.cpe_match`. -/
def Node.cpe_match : Node → List Match
  | Node.mk _ _ ms => ms

mutual

/-- `Node::is_match` from node.rs (lines 176-222, identically
`src/domain-db/src/sources/nist/cve/node.rs` lines 138-184): a node with a
non-empty `cpe_match` is a leaf and evaluates its predicates under its
operator; otherwise the children are evaluated under the operator; the `Or`
loops fall through to the final `false`, the `And` loops return `true` after
the loop (vacuously on no iterations). -/
def Node.is_match (vc : List Char → List Char → Cmp → Option Bool)
    (ia : Char → Bool) (product version : List Char) : Node → Bool
  | Node.mk operator children cpe_match =>
    if !cpe_match.isEmpty then
      match operator with
      | Operator.Or => cpe_match.any fun m => m.is_match vc ia product version
      | Operator.And => cpe_match.all fun m => m.is_match vc ia product version
    else
      match operator with
      | Operator.Or => anyNodeMatch vc ia product version children
      | Operator.And => allNodeMatch vc ia product version children

/-- The `Operator::Or` loop over `children`: return `true` at the first
matching child, fall through to `false`. -/
def anyNodeMatch (vc : List Char → List Char → Cmp → Option Bool)
    (ia : Char → Bool) (product version : List Char) : List Node → Bool
  | [] => false
  | child :: rest =>
    if Node.is_match vc ia product version child then true
    else anyNodeMatch vc ia product version rest

/-- The `Operator::And` loop over `children`: return `false` at the first
non-matching child, `true` after the loop. -/
def allNodeMatch (vc : List Char → List Char → Cmp → Option Bool)
    (ia : Char → Bool) (product version : List Char) : List Node → Bool
  | [] => true
  | child :: rest =>
    if !Node.is_match vc ia product version child then false
    else allNodeMatch vc ia product version rest

end

/-- `Query` from `src/src/search/mod.rs` /
`src/domain-db/src/search/mod.rs`. -/
structure Query where
  vendor : Option (List Char)
  product : List Char
  version : Option (List Char)
deriving DecidableEq

/-- The `models::Object` row fields read by the query path (`obj.cve`,
`obj.data`). -/
structure Obj where
  cve : List Char
  data : List Char
deriving DecidableEq

/-- The `lru::LruCache` used as the result cache, modelled as a capacity and a
most-recent-first association list. -/
structure LruCache (K V : Type) where
  cap : Nat
  entries : List (K × V)
deriving DecidableEq

/-- `LruCache::get`: on a hit, move the entry to the front (most recently
used) and return its value; on a miss, leave the cache unchanged. -/
def LruCache.get {K V : Type} [DecidableEq K] (c : LruCache K V) (k : K) :
    Option V × LruCache K V :=
  match c.entries.find? (fun e => decide (e.1 = k)) with
  | none => (none, c)
  | some e =>
    (some e.2, ⟨c.cap, e :: c.entries.eraseP (fun x => decide (x.1 = k))⟩)

/-- `LruCache::put`: replace any entry with the same key, push the new entry
to the front, and evict from the least-recently-used end down to capacity. -/
def LruCache.put {K V : Type} [DecidableEq K] (c : LruCache K V) (k : K)
    (v : V) : LruCache K V :=
  ⟨c.cap, List.take c.cap ((k, v) :: c.entries.eraseP (fun x => decide (x.1 = k)))⟩

/-- Error strings surfaced by the `query` function of
`src/src/search/mod.rs` / `src/domain-db/src/search/mod.rs`. -/
inductive SearchErr where
  /-- "invalid version string" -/
  | invalidVersionString
  /-- an error from `db.search(...)?`, propagated unchanged -/
  | dbError (msg : List Char)
  /-- "could not deserialize <cve>" -/
  | couldNotDeserialize (cve : List Char)
  /-- "unsupported data source <src>" -/
  | unsupportedSource (src : List Char)
deriving DecidableEq

/-- Instrumentation for the claims about the storage layer: how many times
`db.search` ran and how many times `cache.put` ran during one `query` call. -/
structure Effects where
  storageFetches : Nat
  cachePuts : Nat
deriving DecidableEq

/-- The external collaborators of `query`, abstracted: the version comparator,
the database search (`M` is the `models::CVE` meta-row type), the `source`
column of a meta row, the two `serde_json::from_str` deserializers (`S` is the
`Source` enum), and `Source::is_match`. -/
structure SearchEnv (M S : Type) where
  compare_to : List Char → List Char → Cmp → Option Bool
  dbSearch : Option (List Char) → List Char → Except (List Char) (List (M × Obj))
  sourceName : M → List Char
  deserNist : List Char → Option S
  deserNpm : List Char → Option S
  srcIsMatch : S → Query → Bool

/-- The candidate-deserialization loop of `query` (`src/src/search/mod.rs`
lines 56-74): dispatch on the meta row's `source` tag (`"NIST"` / `"NPM"`),
abort the whole query at the first candidate that fails to deserialize or
carries an unknown tag. -/
def deserializeAll {M S : Type} (env : SearchEnv M S) :
    List (M × Obj) → Except SearchErr (List S)
  | [] => Except.ok []
  | (cve, obj) :: rest =>
    if env.sourceName cve = "NIST".toList then
      match env.deserNist obj.data with
      | some s =>
        match deserializeAll env rest with
        | Except.ok sources => Except.ok (s :: sources)
        | Except.error e => Except.error e
      | none => Except.error (SearchErr.couldNotDeserialize obj.cve)
    else if env.sourceName cve = "NPM".toList then
      match env.deserNpm obj.data with
      | some s =>
        match deserializeAll env rest with
        | Except.ok sources => Except.ok (s :: sources)
        | Except.error e => Except.error e
      | none => Except.error (SearchErr.couldNotDeserialize obj.cve)
    else Except.error (SearchErr.unsupportedSource (env.sourceName cve))

/-- The matching loop of `query` (`src/src/search/mod.rs` lines 83-87):
`sources` is index-aligned with `candidates`; push `candidates[index].0` for
every source that matches the query. -/
def collectMatches {M S : Type} (env : SearchEnv M S) (q : Query) :
    List S → List (M × Obj) → List M
  | [], _ => []
  | _ :: _, [] => []
  | s :: sources, (cve, _) :: candidates =>
    if env.srcIsMatch s q then cve :: collectMatches env q sources candidates
    else collectMatches env q sources candidates

/-- `query` from `src/src/search/mod.rs` (lines 24-94; the same pipeline with
the cache passed explicitly is `query` in `src/domain-db/src/search/mod.rs`
lines 21-102): validate the version string against the sentinel `1.0.0` under
`Ne`, consult the LRU cache, on a miss fetch candidates from storage,
deserialize them all, evaluate the matches and store the result under the
query. The returned `Effects` counts the `db.search` and `cache.put` calls
performed. -/
def query {M S : Type} (env : SearchEnv M S) (q : Query)
    (cache : LruCache Query (List M)) :
    Except SearchErr (List M) × LruCache Query (List M) × Effects :=
  let validationFailed :=
    match q.version with
    | some ver => (env.compare_to ver "1.0.0".toList Cmp.Ne).isNone
    | none => false
  if validationFailed then
    (Except.error SearchErr.invalidVersionString, cache, ⟨0, 0⟩)
  else
    match LruCache.get cache q with
    | (some cached, cache1) => (Except.ok cached, cache1, ⟨0, 0⟩)
    | (none, cache1) =>
      match env.dbSearch q.vendor q.product with
      | Except.error e => (Except.error (SearchErr.dbError e), cache1, ⟨1, 0⟩)
      | Except.ok candidates =>
        match deserializeAll env candidates with
        | Except.error e => (Except.error e, cache1, ⟨1, 0⟩)
        | Except.ok sources =>
          let matched := collectMatches env q sources candidates
          (Except.ok matched, LruCache.put cache1 q matched, ⟨1, 1⟩)

/-- A concrete environment whose version comparator always fails, for
exercising the invalid-version path on a concrete query. -/
def failEnv : SearchEnv Unit Unit :=
  { compare_to := fun _ _ _ => none
    dbSearch := fun _ _ => Except.ok []
    sourceName := fun _ => "NIST".toList
    deserNist := fun _ => some ()
    deserNpm := fun _ => some ()
    srcIsMatch := fun _ _ => true }

/-- A concrete environment whose comparator and storage always succeed. -/
def okEnv : SearchEnv Unit Unit :=
  { failEnv with compare_to := fun _ _ _ => some true }

/-- The query of spec scenario 5: an unparseable version string. -/
def badQuery : Query :=
  { vendor := none, product := "x".toList, version := some "not a version".toList }

/-- A well-formed concrete query. -/
def okQuery : Query :=
  { vendor := none, product := "openssl".toList, version := some "1.0.1".toList }

/-- An empty result cache at the repository's default capacity 4096. -/
def emptyCache : LruCache Query (List Unit) := ⟨4096, []⟩

/-- A twelve-trailing-field CPE string (one field too many). -/
def twelveFieldUri : List Char := "cpe:2.3:a:v:p:1:*:*:*:*:*:*:*:extra".toList

/-! ## Helper lemmas on splitting and joining -/

theorem splitOnChar_ne_nil (c : Char) (s : List Char) : splitOnChar c s ≠ [] := by
  cases s with
  | nil => simp [splitOnChar]
  | cons x xs =>
    rw [splitOnChar]
    cases hs : splitOnChar c xs with
    | nil => simp
    | cons h t => by_cases hx : x = c <;> simp [hx]

theorem splitOnChar_single (c : Char) (a : List Char) (h : c ∉ a) :
    splitOnChar c a = [a] := by
  induction a with
  | nil => rfl
  | cons x xs ih =>
    have hx : x ≠ c := by rintro rfl; exact h (List.mem_cons_self x xs)
    have hxs : c ∉ xs := fun hm => h (List.mem_cons_of_mem x hm)
    simp [splitOnChar, ih hxs, hx]

theorem splitOnChar_append (c : Char) (a rest : List Char) (h : c ∉ a) :
    splitOnChar c (a ++ c :: rest) = a :: splitOnChar c rest := by
  induction a with
  | nil =>
    rw [List.nil_append, splitOnChar]
    cases hs : splitOnChar c rest with
    | nil => exact absurd hs (splitOnChar_ne_nil c rest)
    | cons h t => simp
  | cons x xs ih =>
    have hx : x ≠ c := by rintro rfl; exact h (List.mem_cons_self x xs)
    have hxs : c ∉ xs := fun hm => h (List.mem_cons_of_mem x hm)
    rw [List.cons_append, splitOnChar, ih hxs]
    simp [hx]

theorem splitOnChar_joinColon (fields : List (List Char)) (hne : fields ≠ [])
    (hc : ∀ f ∈ fields, ':' ∉ f) :
    splitOnChar ':' (joinColon fields) = fields := by
  induction fields with
  | nil => exact absurd rfl hne
  | cons f rest ih =>
    cases rest with
    | nil => exact splitOnChar_single ':' f (hc f (by simp))
    | cons g rest2 =>
      show splitOnChar ':' (f ++ ':' :: joinColon (g :: rest2)) = _
      rw [splitOnChar_append ':' f _ (hc f (by simp))]
      rw [ih (by simp) (fun x hx => hc x (List.mem_cons_of_mem f hx))]

theorem breakAtChar_not_mem (c : Char) (a : List Char) (h : c ∉ a) :
    breakAtChar c a = none := by
  induction a with
  | nil => rfl
  | cons x xs ih =>
    have hx : x ≠ c := by rintro rfl; exact h (List.mem_cons_self x xs)
    have hxs : c ∉ xs := fun hm => h (List.mem_cons_of_mem x hm)
    simp [breakAtChar, hx, ih hxs]

theorem breakAtChar_append (c : Char) (a rest : List Char) (h : c ∉ a) :
    breakAtChar c (a ++ c :: rest) = some (a, rest) := by
  induction a with
  | nil => simp [breakAtChar]
  | cons x xs ih =>
    have hx : x ≠ c := by rintro rfl; exact h (List.mem_cons_self x xs)
    have hxs : c ∉ xs := fun hm => h (List.mem_cons_of_mem x hm)
    simp [breakAtChar, hx, ih hxs]

theorem splitnChar_single (c : Char) (n : Nat) (a : List Char) (h : c ∉ a)
    (hn : 1 ≤ n) : splitnChar c n a = [a] := by
  match n, hn with
  | 1, _ => rfl
  | k + 2, _ => simp [splitnChar, breakAtChar_not_mem c a h]

theorem splitnChar_joinColon (n : Nat) (fields : List (List Char))
    (hne : fields ≠ []) (hlen : fields.length ≤ n)
    (hc : ∀ f ∈ fields, ':' ∉ f) :
    splitnChar ':' n (joinColon fields) = fields := by
  induction fields generalizing n with
  | nil => exact absurd rfl hne
  | cons f rest ih =>
    cases rest with
    | nil =>
      exact splitnChar_single ':' n f (hc f (by simp)) hlen
    | cons g rest2 =>
      obtain ⟨m, rfl⟩ : ∃ m, n = m + 2 := by
        have h2 : 2 ≤ n := by
          have hl := hlen
          simp [List.length] at hl
          omega
        exact ⟨n - 2, by omega⟩
      show splitnChar ':' (m + 2) (f ++ ':' :: joinColon (g :: rest2)) = _
      rw [splitnChar, breakAtChar_append ':' f _ (hc f (by simp))]
      show f :: splitnChar ':' (m + 1) (joinColon (g :: rest2)) = _
      rw [ih (m + 1) (by simp) (by simp [List.length] at hlen ⊢; omega)
        (fun x hx => hc x (List.mem_cons_of_mem f hx))]

theorem stripPre_append (p s : List Char) : stripPre p (p ++ s) = some s := by
  induction p with
  | nil => rfl
  | cons x xs ih => simp [stripPre, ih]

/-! ## Parser lemmas -/

theorem component_render_parse (f : List Char) :
    (Component.parse f).render = f := by
  unfold Component.parse
  by_cases h1 : f = "*".toList
  · rw [if_pos h1]; subst h1; rfl
  · rw [if_neg h1]
    by_cases h2 : f = "-".toList
    · rw [if_pos h2]; subst h2; rfl
    · rw [if_neg h2]; rfl

theorem from_str_pre_append (X : List Char) :
    CPE23.from_str (cpe23Pre ++ X) = parseComps (splitOnChar ':' X) := by
  unfold CPE23.from_str
  rw [stripPre_append]

theorem cpeType_from_str_error_cases (v : List Char) (e : ParseErr)
    (h : CpeType.from_str v = Except.error e) :
    e = ParseErr.noCharsForType ∨ ∃ c, e = ParseErr.couldNotConvert c := by
  unfold CpeType.from_str at h
  by_cases hany : v = "ANY".toList
  · simp [hany] at h
  · rw [if_neg hany] at h
    cases v with
    | nil =>
      left
      exact (Except.error.injEq _ _ ▸ h).symm
    | cons c cs =>
      by_cases hh : c = 'h'
      · simp [hh] at h
      · by_cases ho : c = 'o'
        · simp [hh, ho] at h
        · by_cases ha : c = 'a'
          · simp [hh, ho, ha] at h
          · right
            refine ⟨c, ?_⟩
            simp [hh, ho, ha] at h
            exact h.symm

theorem parseComps_cons_short (t : List Char) (rest : List (List Char))
    (w : CpeType) (hw : CpeType.from_str t = Except.ok w)
    (h : rest.length < 10) :
    parseComps (t :: rest) = Except.error ParseErr.invalidVersionString := by
  rcases rest with _ | ⟨a1, _ | ⟨a2, _ | ⟨a3, _ | ⟨a4, _ | ⟨a5, _ | ⟨a6, _ | ⟨a7, _ | ⟨a8, _ | ⟨a9, _ | ⟨a10, rest11⟩⟩⟩⟩⟩⟩⟩⟩⟩⟩
  all_goals first
    | (exfalso
       simp only [List.length_cons, List.length_nil] at h
       omega)
    | simp [parseComps, hw]

theorem parseComps_cons_long (t : List Char) (rest : List (List Char))
    (w : CpeType) (hw : CpeType.from_str t = Except.ok w)
    (h : 10 ≤ rest.length) :
    ∃ c, parseComps (t :: rest) = Except.ok c := by
  rcases rest with _ | ⟨a1, _ | ⟨a2, _ | ⟨a3, _ | ⟨a4, _ | ⟨a5, _ | ⟨a6, _ | ⟨a7, _ | ⟨a8, _ | ⟨a9, _ | ⟨a10, rest11⟩⟩⟩⟩⟩⟩⟩⟩⟩⟩
  all_goals first
    | (exfalso
       simp only [List.length_cons, List.length_nil] at h
       omega)
    | exact ⟨{ what := w
               vendor := Component.parse a1
               product := Component.parse a2
               version := Component.parse a3
               update := Component.parse a4
               edition := Component.parse a5
               language := Component.parse a6
               sw_edition := Component.parse a7
               target_sw := Component.parse a8
               target_hw := Component.parse a9
               other := Component.parse a10 }, by simp [parseComps, hw]⟩

theorem parseComps_drop_extra (a1 a2 a3 a4 a5 a6 a7 a8 a9 a10 a11 : List Char)
    (rest rest2 : List (List Char)) :
    parseComps (a1 :: a2 :: a3 :: a4 :: a5 :: a6 :: a7 :: a8 :: a9 :: a10 ::
        a11 :: rest) =
      parseComps (a1 :: a2 :: a3 :: a4 :: a5 :: a6 :: a7 :: a8 :: a9 :: a10 ::
        a11 :: rest2) := by
  cases h : CpeType.from_str a1 <;> simp [parseComps, h]

theorem parseComps_error_cases (comps : List (List Char)) (e : ParseErr)
    (h : parseComps comps = Except.error e) :
    e = ParseErr.invalidVersionString ∨ e = ParseErr.noCharsForType ∨
      ∃ c, e = ParseErr.couldNotConvert c := by
  cases comps with
  | nil =>
    left
    simp only [parseComps, Except.error.injEq] at h
    exact h.symm
  | cons t rest =>
    cases hw : CpeType.from_str t with
    | error e2 =>
      have h2 : e2 = e := by
        simp only [parseComps, hw, Except.error.injEq] at h
        exact h
      rcases cpeType_from_str_error_cases t e2 hw with hc | ⟨c, hc⟩
      · right; left; rw [← h2, hc]
      · right; right; exact ⟨c, by rw [← h2, hc]⟩
    | ok w =>
      by_cases hlen : rest.length < 10
      · left
        rw [parseComps_cons_short t rest w hw hlen] at h
        exact (Except.error.inj h).symm
      · exfalso
        obtain ⟨c, hc⟩ := parseComps_cons_long t rest w hw (by omega)
        rw [hc] at h
        exact Except.noConfusion h

theorem from_str_ok_shape (t f1 f2 f3 f4 f5 f6 f7 f8 f9 f10 : List Char)
    (w : CpeType) (hw : CpeType.from_str t = Except.ok w) (ht : ':' ∉ t)
    (h1 : ':' ∉ f1) (h2 : ':' ∉ f2) (h3 : ':' ∉ f3) (h4 : ':' ∉ f4)
    (h5 : ':' ∉ f5) (h6 : ':' ∉ f6) (h7 : ':' ∉ f7) (h8 : ':' ∉ f8)
    (h9 : ':' ∉ f9) (h10 : ':' ∉ f10) :
    CPE23.from_str
        (cpe23Pre ++ joinColon [t, f1, f2, f3, f4, f5, f6, f7, f8, f9, f10]) =
      Except.ok
        { what := w
          vendor := Component.parse f1
          product := Component.parse f2
          version := Component.parse f3
          update := Component.parse f4
          edition := Component.parse f5
          language := Component.parse f6
          sw_edition := Component.parse f7
          target_sw := Component.parse f8
          target_hw := Component.parse f9
          other := Component.parse f10 } := by
  rw [from_str_pre_append]
  rw [splitOnChar_joinColon _ (by simp) (by
    intro f hf
    simp at hf
    rcases hf with rfl | rfl | rfl | rfl | rfl | rfl | rfl | rfl | rfl | rfl | rfl <;>
      assumption)]
  simp [parseComps, hw]

theorem from_str_sources_ok_shape (cpeTok t f1 f2 f3 f4 f5 f6 f7 f8 f9 f10 : List Char)
    (hcpe : cpeTok = "cpe".toList ∨ cpeTok = "CPE".toList)
    (w : CpeType) (hw : CpeType.from_str t = Except.ok w) (ht : ':' ∉ t)
    (h1 : ':' ∉ f1) (h2 : ':' ∉ f2) (h3 : ':' ∉ f3) (h4 : ':' ∉ f4)
    (h5 : ':' ∉ f5) (h6 : ':' ∉ f6) (h7 : ':' ∉ f7) (h8 : ':' ∉ f8)
    (h9 : ':' ∉ f9) (h10 : ':' ∉ f10) :
    CPE23.from_str_sources
        (joinColon [cpeTok, "2.3".toList, t, f1, f2, f3, f4, f5, f6, f7, f8, f9, f10]) =
      Except.ok
        { what := w
          vendor := Component.parse f1
          product := Component.parse f2
          version := Component.parse f3
          update := Component.parse f4
          edition := Component.parse f5
          language := Component.parse f6
          sw_edition := Component.parse f7
          target_sw := Component.parse f8
          target_hw := Component.parse f9
          other := Component.parse f10 } := by
  have hcc : ':' ∉ cpeTok := by
    rcases hcpe with rfl | rfl <;> decide
  unfold CPE23.from_str_sources
  rw [splitnChar_joinColon 13 _ (by simp) (by simp) (by
    intro f hf
    simp at hf
    rcases hf with rfl | rfl | rfl | rfl | rfl | rfl | rfl | rfl | rfl | rfl | rfl | rfl | rfl
    · exact hcc
    · decide
    all_goals assumption)]
  rcases hcpe with rfl | rfl <;> simp [hw]

theorem stripPre_upper (X : List Char) :
    stripPre cpe23Pre ("CPE:2.3:".toList ++ X) = none := rfl

theorem joinColon_cons_cons (f g : List Char) (rest : List (List Char)) :
    joinColon (f :: g :: rest) = f ++ ':' :: joinColon (g :: rest) := rfl

/-! ## LRU cache lemmas -/

theorem LruCache.get_miss_eq {K V : Type} [DecidableEq K]
    (c : LruCache K V) (k : K) (h : (LruCache.get c k).1 = none) :
    LruCache.get c k = (none, c) := by
  unfold LruCache.get at h ⊢
  cases hf : c.entries.find? (fun e => decide (e.1 = k)) with
  | none => rfl
  | some e => rw [hf] at h; simp at h

theorem LruCache.get_put_self {K V : Type} [DecidableEq K]
    (c : LruCache K V) (k : K) (v : V) (h : 0 < c.cap) :
    ∃ c2, LruCache.get (LruCache.put c k v) k = (some v, c2) := by
  obtain ⟨cap, entries⟩ := c
  obtain ⟨n, rfl⟩ : ∃ n, cap = n + 1 := ⟨cap - 1, by simp at h; omega⟩
  refine ⟨⟨n + 1,
    (k, v) :: List.take n (List.eraseP (fun x => decide (x.1 = k)) entries)⟩, ?_⟩
  unfold LruCache.put LruCache.get
  simp only [List.take_succ_cons]
  rw [List.find?_cons_of_pos _ (by simp)]
  simp

/-! ## Node evaluation lemmas -/

theorem anyNodeMatch_iff (vc : List Char → List Char → Cmp → Option Bool)
    (ia : Char → Bool) (product version : List Char) (l : List Node) :
    anyNodeMatch vc ia product version l = true ↔
      ∃ n ∈ l, Node.is_match vc ia product version n = true := by
  induction l with
  | nil => simp [anyNodeMatch]
  | cons x xs ih =>
    rw [anyNodeMatch]
    by_cases hx : Node.is_match vc ia product version x = true
    · simp [hx]
    · simp only [hx, if_neg, Bool.false_eq_true, ite_false, ih]
      constructor
      · rintro ⟨n, hn, hm⟩
        exact ⟨n, List.mem_cons_of_mem x hn, hm⟩
      · rintro ⟨n, hn, hm⟩
        rcases List.mem_cons.mp hn with rfl | hn2
        · exact absurd hm hx
        · exact ⟨n, hn2, hm⟩

theorem allNodeMatch_iff (vc : List Char → List Char → Cmp → Option Bool)
    (ia : Char → Bool) (product version : List Char) (l : List Node) :
    allNodeMatch vc ia product version l = true ↔
      ∀ n ∈ l, Node.is_match vc ia product version n = true := by
  induction l with
  | nil => simp [allNodeMatch]
  | cons x xs ih =>
    rw [allNodeMatch]
    by_cases hx : Node.is_match vc ia product version x = true
    · simp only [hx, Bool.not_true, Bool.false_eq_true, ite_false, ih]
      constructor
      · intro hall n hn
        rcases List.mem_cons.mp hn with rfl | hn2
        · exact hx
        · exact hall n hn2
      · intro hall n hn
        exact hall n (List.mem_cons_of_mem x hn)
    · have hx2 : Node.is_match vc ia product version x = false :=
        Bool.eq_false_iff.mpr hx
      simp only [hx2, Bool.not_false, if_pos]
      constructor
      · intro hfalse
        exact absurd hfalse (by simp)
      · intro hall
        exact absurd (hall x (List.mem_cons_self x xs)) hx

/-! ## Normalization lemmas -/

theorem normalize_target_software_front (ia : Char → Bool) (sw : List Char) :
    ∃ t2, normalize_target_software ia sw ++ t2 = sw := by
  induction sw with
  | nil => exact ⟨[], rfl⟩
  | cons c rest ih =>
    by_cases hc : ia c
    · obtain ⟨t2, ht2⟩ := ih
      exact ⟨t2, by simp [normalize_target_software, hc, ht2]⟩
    · exact ⟨c :: rest, by simp [normalize_target_software, hc]⟩

theorem normalize_target_software_alnum (ia : Char → Bool) (sw : List Char) :
    ∀ ch ∈ normalize_target_software ia sw, ia ch = true := by
  induction sw with
  | nil => simp [normalize_target_software]
  | cons c rest ih =>
    by_cases hc : ia c
    · intro ch hch
      rw [normalize_target_software, if_pos hc] at hch
      rcases List.mem_cons.mp hch with rfl | hch2
      · exact hc
      · exact ih ch hch2
    · intro ch hch
      rw [normalize_target_software, if_neg hc] at hch
      exact absurd hch (List.not_mem_nil ch)

theorem normalize_target_software_longest (ia : Char → Bool) (sw l : List Char)
    (hl : ∃ t2, l ++ t2 = sw) (ha : ∀ ch ∈ l, ia ch = true) :
    ∃ t2, l ++ t2 = normalize_target_software ia sw := by
  induction l generalizing sw with
  | nil => exact ⟨normalize_target_software ia sw, rfl⟩
  | cons c l2 ih =>
    obtain ⟨t2, ht2⟩ := hl
    have hc : ia c = true := ha c (List.mem_cons_self c l2)
    subst ht2
    rw [List.cons_append, normalize_target_software, if_pos hc]
    obtain ⟨t3, ht3⟩ :=
      ih (l2 ++ t2) ⟨t2, rfl⟩ (fun ch hch => ha ch (List.mem_cons_of_mem c hch))
    exact ⟨t3, by rw [List.cons_append, ht3]⟩

/-! ## Claim theorems -/

/-- C10: `Component::from_str` is total: every string parses `Ok`, with `*` ↦
`Any`, `-` ↦ `NotApplicable` and everything else (including the empty string)
↦ `Value`; consequently a `CPE23::from_str` failure can only be the prefix
error, the field-count error, or one of the two type-field errors — never an
error from a component field. -/
theorem component_from_str_total (s : List Char) :
    (∃ c, Component.from_str s = Except.ok c) ∧
    Component.from_str ("*".toList) = Except.ok Component.Any ∧
    Component.from_str ("-".toList) = Except.ok Component.NotApplicable ∧
    (s ≠ "*".toList → s ≠ "-".toList →
      Component.from_str s = Except.ok (Component.Value s)) ∧
    (∀ uri e, CPE23.from_str uri = Except.error e →
      e = ParseErr.invalidPre ∨ e = ParseErr.invalidVersionString ∨
        e = ParseErr.noCharsForType ∨ ∃ ch, e = ParseErr.couldNotConvert ch) := by
  refine ⟨⟨Component.parse s, rfl⟩, rfl, rfl, ?_, ?_⟩
  · intro h1 h2
    unfold Component.from_str Component.parse
    rw [if_neg h1, if_neg h2]
  · intro uri e h
    cases hs : stripPre cpe23Pre uri with
    | none =>
      simp only [CPE23.from_str, hs, Except.error.injEq] at h
      left
      exact h.symm
    | some rest =>
      simp only [CPE23.from_str, hs] at h
      rcases parseComps_error_cases _ e h with h1 | h2 | h3
      · right; left; exact h1
      · right; right; left; exact h2
      · right; right; right; exact h3

/-- C7: `Match::is_match` never consults the `vulnerable` flag: two predicates
that agree on every other field produce the same boolean on every
(product, version) pair. -/
theorem match_vulnerable_noninterference
    (vc : List Char → List Char → Cmp → Option Bool) (ia : Char → Bool)
    (m : Match) (b : Bool) (p v : List Char) :
    Match.is_match vc ia { m with vulnerable := b } p v =
      Match.is_match vc ia m p v := by
  cases m
  rfl

/-- C2: `Match::version_range_matches` is true iff every present bound holds
under its comparison (`≥` for start-including, `>` for start-excluding, `≤`
for end-including, `<` for end-excluding), and is true when no bound is
present. -/
theorem version_range_matches_table
    (vc : List Char → List Char → Cmp → Option Bool) (m : Match)
    (v : List Char) :
    (Match.version_range_matches vc m v = true ↔
      (∀ b, m.version_start_including = some b → version_cmp vc v b Cmp.Ge = true) ∧
      (∀ b, m.version_start_excluding = some b → version_cmp vc v b Cmp.Gt = true) ∧
      (∀ b, m.version_end_including = some b → version_cmp vc v b Cmp.Le = true) ∧
      (∀ b, m.version_end_excluding = some b → version_cmp vc v b Cmp.Lt = true)) ∧
    (m.version_start_including = none → m.version_start_excluding = none →
      m.version_end_including = none → m.version_end_excluding = none →
      Match.version_range_matches vc m v = true) := by
  obtain ⟨vul, cpe, si, se, ei, ee⟩ := m
  cases si <;> cases se <;> cases ei <;> cases ee <;>
    simp [Match.version_range_matches, Option.all, and_assoc]

/-- C3: `cpe23_product_match` (and the identical `CPE23::is_product_match`)
returns true for a wildcard product, false for a not-applicable product, and
for a literal product `p` compares the query against the effective name:
`norm(sw)-p` when `target_sw` is a literal `sw`, else `p` itself; and
`normalize_target_software` computes exactly the longest leading run of
alphanumeric characters of its argument. -/
theorem is_product_match_table (ia : Char → Bool) (cpe : CPE23)
    (q : List Char) :
    (cpe.product = Component.Any → cpe23_product_match ia cpe q = true) ∧
    (cpe.product = Component.NotApplicable →
      cpe23_product_match ia cpe q = false) ∧
    (∀ p, cpe.product = Component.Value p →
      (cpe23_product_match ia cpe q = true ↔
        q = match cpe.target_sw with
            | Component.Value sw => normalize_target_software ia sw ++ '-' :: p
            | _ => p)) ∧
    (∀ sw, (∃ t2, normalize_target_software ia sw ++ t2 = sw) ∧
      (∀ ch ∈ normalize_target_software ia sw, ia ch = true) ∧
      (∀ l, (∃ t2, l ++ t2 = sw) → (∀ ch ∈ l, ia ch = true) →
        ∃ t2, l ++ t2 = normalize_target_software ia sw)) := by
  refine ⟨?_, ?_, ?_, ?_⟩
  · intro h
    simp [cpe23_product_match, h]
  · intro h
    simp [cpe23_product_match, h]
  · intro p hp
    cases hts : cpe.target_sw <;>
      simp [cpe23_product_match, hp, hts, Component.render]
  · intro sw
    exact ⟨normalize_target_software_front ia sw,
      normalize_target_software_alnum ia sw,
      fun l hl ha => normalize_target_software_longest ia sw l hl ha⟩

/-- C1 (amended): `Node::is_match` follows the evaluation table — a node with
non-empty `cpe_match` is a leaf (`Or`: some predicate matches; `And`: all
predicates match), a node with empty `cpe_match` evaluates its children
(`Or`: some child; `And`: all children) — and an empty node returns `false`
under `Or` but `true` under `And` (the `And` loop body never runs and the
function returns `true` after it). -/
theorem node_is_match_table (vc : List Char → List Char → Cmp → Option Bool)
    (ia : Char → Bool) (product version : List Char) (operator : Operator)
    (children : List Node) (cpe_match : List Match) :
    (Node.is_match vc ia product version
        (Node.mk operator children cpe_match) = true ↔
      (if cpe_match.isEmpty then
        match operator with
        | Operator.Or =>
          ∃ child ∈ children, Node.is_match vc ia product version child = true
        | Operator.And =>
          ∀ child ∈ children, Node.is_match vc ia product version child = true
      else
        match operator with
        | Operator.Or =>
          ∃ m ∈ cpe_match, Match.is_match vc ia m product version = true
        | Operator.And =>
          ∀ m ∈ cpe_match, Match.is_match vc ia m product version = true)) ∧
    Node.is_match vc ia product version (Node.mk Operator.Or [] []) = false ∧
    Node.is_match vc ia product version (Node.mk Operator.And [] []) = true := by
  refine ⟨?_, ?_, ?_⟩
  · cases operator <;> by_cases he : cpe_match.isEmpty <;>
      simp [Node.is_match, he, anyNodeMatch_iff, allNodeMatch_iff,
        List.any_eq_true, List.all_eq_true]
  · simp [Node.is_match, anyNodeMatch]
  · simp [Node.is_match, allNodeMatch]

/-- C1 counterexample: the claim says an empty node (no predicates, no
children) returns `false` under both operators, but the code's `And` branch
returns `true` after its (empty) loop: the empty `And` node evaluates to
`true`. -/
theorem node_empty_and_true :
    Node.is_match (fun _ _ _ => none) (fun _ => false) [] []
      (Node.mk Operator.And [] []) = true := by
  simp [Node.is_match, allNodeMatch]

/-- C4: render ∘ parse is the identity on well-formed CPE 2.3 URIs: for the
prefix `cpe:2.3:` followed by eleven colon-free fields whose first field is a
canonical type token (`h`, `o` or `a`), `CPE23::from_str` succeeds and
rendering the parsed value reproduces the input string exactly. -/
theorem cpe23_render_parse_id (t f1 f2 f3 f4 f5 f6 f7 f8 f9 f10 : List Char)
    (ht : t = "h".toList ∨ t = "o".toList ∨ t = "a".toList)
    (h1 : ':' ∉ f1) (h2 : ':' ∉ f2) (h3 : ':' ∉ f3) (h4 : ':' ∉ f4)
    (h5 : ':' ∉ f5) (h6 : ':' ∉ f6) (h7 : ':' ∉ f7) (h8 : ':' ∉ f8)
    (h9 : ':' ∉ f9) (h10 : ':' ∉ f10) :
    ∃ c, CPE23.from_str
        (cpe23Pre ++ joinColon [t, f1, f2, f3, f4, f5, f6, f7, f8, f9, f10]) =
        Except.ok c ∧
      CPE23.render c =
        cpe23Pre ++ joinColon [t, f1, f2, f3, f4, f5, f6, f7, f8, f9, f10] := by
  have hts : ':' ∉ t := by rcases ht with rfl | rfl | rfl <;> decide
  obtain ⟨w, hw, hwr⟩ :
      ∃ w, CpeType.from_str t = Except.ok w ∧ CpeType.renderAlt w = t := by
    rcases ht with rfl | rfl | rfl
    · exact ⟨CpeType.Hardware, rfl, rfl⟩
    · exact ⟨CpeType.OperatingSystem, rfl, rfl⟩
    · exact ⟨CpeType.Application, rfl, rfl⟩
  refine ⟨_, from_str_ok_shape t f1 f2 f3 f4 f5 f6 f7 f8 f9 f10 w hw hts
    h1 h2 h3 h4 h5 h6 h7 h8 h9 h10, ?_⟩
  simp [CPE23.render, component_render_parse, hwr, joinColon]

/-- C4 witness: the NVD fixture `cpe:2.3:o:google:android:4.2.2:*:*:*:*:*:*:*`
parses and renders back to itself. -/
theorem cpe23_render_parse_id_witness :
    ∃ c, CPE23.from_str
        (cpe23Pre ++ joinColon ["o".toList, "google".toList, "android".toList,
          "4.2.2".toList, "*".toList, "*".toList, "*".toList, "*".toList,
          "*".toList, "*".toList, "*".toList]) = Except.ok c ∧
      CPE23.render c =
        cpe23Pre ++ joinColon ["o".toList, "google".toList, "android".toList,
          "4.2.2".toList, "*".toList, "*".toList, "*".toList, "*".toList,
          "*".toList, "*".toList, "*".toList] :=
  cpe23_render_parse_id "o".toList "google".toList "android".toList
    "4.2.2".toList "*".toList "*".toList "*".toList "*".toList "*".toList
    "*".toList "*".toList (Or.inr (Or.inl rfl)) (by decide) (by decide)
    (by decide) (by decide) (by decide) (by decide) (by decide) (by decide)
    (by decide) (by decide)

theorem from_str_extra_fields (a1 a2 a3 a4 a5 a6 a7 a8 a9 a10 a11 : List Char)
    (rest : List (List Char))
    (hc : ∀ f ∈ a1 :: a2 :: a3 :: a4 :: a5 :: a6 :: a7 :: a8 :: a9 :: a10 ::
      a11 :: rest, ':' ∉ f) :
    CPE23.from_str (cpe23Pre ++ joinColon (a1 :: a2 :: a3 :: a4 :: a5 :: a6 ::
        a7 :: a8 :: a9 :: a10 :: a11 :: rest)) =
      CPE23.from_str (cpe23Pre ++
        joinColon [a1, a2, a3, a4, a5, a6, a7, a8, a9, a10, a11]) := by
  rw [from_str_pre_append, from_str_pre_append]
  rw [splitOnChar_joinColon _ (by simp) hc]
  rw [splitOnChar_joinColon _ (by simp) (by
    intro f hf
    refine hc f ?_
    simp at hf
    simp [hf]
    tauto)]
  exact parseComps_drop_extra a1 a2 a3 a4 a5 a6 a7 a8 a9 a10 a11 rest []

/-- C5 (amended): a remainder with fewer than eleven fields is a parse error
(and exactly "invalid version string" whenever the type field itself parses),
but a remainder with more than eleven fields parses exactly as its first
eleven fields do — the extra fields are ignored, not rejected. -/
theorem cpe23_field_count_amended (fields : List (List Char))
    (hc : ∀ f ∈ fields, ':' ∉ f) :
    (fields ≠ [] → fields.length < 11 →
      ∃ e, CPE23.from_str (cpe23Pre ++ joinColon fields) = Except.error e) ∧
    (∀ t rest w, fields = t :: rest → fields.length < 11 →
      CpeType.from_str t = Except.ok w →
      CPE23.from_str (cpe23Pre ++ joinColon fields) =
        Except.error ParseErr.invalidVersionString) ∧
    (11 ≤ fields.length →
      CPE23.from_str (cpe23Pre ++ joinColon fields) =
        CPE23.from_str (cpe23Pre ++ joinColon (List.take 11 fields))) := by
  refine ⟨?_, ?_, ?_⟩
  · intro hne hlen
    rw [from_str_pre_append, splitOnChar_joinColon fields hne hc]
    cases fields with
    | nil => exact absurd rfl hne
    | cons t rest =>
      cases hw : CpeType.from_str t with
      | error e => exact ⟨e, by simp [parseComps, hw]⟩
      | ok w =>
        exact ⟨ParseErr.invalidVersionString,
          parseComps_cons_short t rest w hw (by simp at hlen; omega)⟩
  · intro t rest w hfields hlen hw
    subst hfields
    rw [from_str_pre_append, splitOnChar_joinColon _ (by simp) hc]
    exact parseComps_cons_short t rest w hw (by simp at hlen; omega)
  · intro hlen
    rcases fields with _ | ⟨a1, _ | ⟨a2, _ | ⟨a3, _ | ⟨a4, _ | ⟨a5, _ | ⟨a6, _ | ⟨a7, _ | ⟨a8, _ | ⟨a9, _ | ⟨a10, _ | ⟨a11, rest⟩⟩⟩⟩⟩⟩⟩⟩⟩⟩⟩
    all_goals try (exfalso; simp only [List.length_cons, List.length_nil] at hlen; omega)
    have htake : List.take 11 (a1 :: a2 :: a3 :: a4 :: a5 :: a6 :: a7 :: a8 ::
        a9 :: a10 :: a11 :: rest) = [a1, a2, a3, a4, a5, a6, a7, a8, a9, a10, a11] := by
      simp [List.take_succ_cons]
    rw [htake]
    exact from_str_extra_fields a1 a2 a3 a4 a5 a6 a7 a8 a9 a10 a11 rest hc

/-- C5 counterexample: the claim says a twelve-field remainder is rejected,
but `cpe:2.3:a:v:p:1:*:*:*:*:*:*:*:extra` (twelve trailing fields) is accepted
by both parsers — the crate parser ignores the twelfth field and the
`splitn(13)`-based parser folds it into the last component. -/
theorem cpe23_extra_fields_parse_ok :
    isOkE (CPE23.from_str twelveFieldUri) = true ∧
    isOkE (CPE23.from_str_sources twelveFieldUri) = true := by
  constructor <;> rfl

/-- C5 witness: the two-field remainder `a:v` fails with exactly
"invalid version string". -/
theorem cpe23_field_count_witness :
    CPE23.from_str (cpe23Pre ++ joinColon ["a".toList, "v".toList]) =
      Except.error ParseErr.invalidVersionString :=
  (cpe23_field_count_amended ["a".toList, "v".toList] (by decide)).2.1
    "a".toList ["v".toList] CpeType.Application rfl (by decide) rfl

/-- C6 (amended): only the `splitn`-based parser of
`src/domain-db/src/sources/nist/cpe/mod.rs` accepts the upper-case `CPE:2.3:`
prefix; the cpe-crate parser of `src/cpe/src/lib.rs` strips the literal
`cpe:2.3:` case-sensitively and rejects the same string with
"invalid prefix". Rendering always emits the lower-case prefix. -/
theorem cpe23_upper_amended (t f1 f2 f3 f4 f5 f6 f7 f8 f9 f10 : List Char)
    (ht : t = "h".toList ∨ t = "o".toList ∨ t = "a".toList)
    (h1 : ':' ∉ f1) (h2 : ':' ∉ f2) (h3 : ':' ∉ f3) (h4 : ':' ∉ f4)
    (h5 : ':' ∉ f5) (h6 : ':' ∉ f6) (h7 : ':' ∉ f7) (h8 : ':' ∉ f8)
    (h9 : ':' ∉ f9) (h10 : ':' ∉ f10) :
    (∃ c, CPE23.from_str_sources ("CPE:2.3:".toList ++
        joinColon [t, f1, f2, f3, f4, f5, f6, f7, f8, f9, f10]) =
      Except.ok c) ∧
    CPE23.from_str ("CPE:2.3:".toList ++
        joinColon [t, f1, f2, f3, f4, f5, f6, f7, f8, f9, f10]) =
      Except.error ParseErr.invalidPre ∧
    ∀ c : CPE23, ∃ restStr, CPE23.render c = "cpe:2.3:".toList ++ restStr := by
  have hts : ':' ∉ t := by rcases ht with rfl | rfl | rfl <;> decide
  obtain ⟨w, hw⟩ : ∃ w, CpeType.from_str t = Except.ok w := by
    rcases ht with rfl | rfl | rfl
    · exact ⟨CpeType.Hardware, rfl⟩
    · exact ⟨CpeType.OperatingSystem, rfl⟩
    · exact ⟨CpeType.Application, rfl⟩
  refine ⟨?_, ?_, ?_⟩
  · have hjoin : "CPE:2.3:".toList ++
        joinColon [t, f1, f2, f3, f4, f5, f6, f7, f8, f9, f10] =
        joinColon ["CPE".toList, "2.3".toList, t, f1, f2, f3, f4, f5, f6, f7,
          f8, f9, f10] := rfl
    rw [hjoin]
    exact ⟨_, from_str_sources_ok_shape "CPE".toList t f1 f2 f3 f4 f5 f6 f7 f8
      f9 f10 (Or.inr rfl) w hw hts h1 h2 h3 h4 h5 h6 h7 h8 h9 h10⟩
  · unfold CPE23.from_str
    rw [stripPre_upper]
  · intro c
    exact ⟨_, rfl⟩

/-- C6 counterexample: the claim says a string with the upper-case prefix
parses successfully, but the cpe-crate `CPE23::from_str` (the parser at
src/cpe/src/lib.rs, cited by the claim) rejects
`CPE:2.3:a:v:p:*:*:*:*:*:*:*:*` with "invalid prefix". -/
theorem cpe23_upper_rejected_by_crate :
    CPE23.from_str ("CPE:2.3:a:v:p:*:*:*:*:*:*:*:*".toList) =
      Except.error ParseErr.invalidPre := rfl

/-- C6 witness at `CPE:2.3:a:v:p:*:*:*:*:*:*:*:*`. -/
theorem cpe23_upper_witness :
    (∃ c, CPE23.from_str_sources ("CPE:2.3:".toList ++
        joinColon ["a".toList, "v".toList, "p".toList, "*".toList, "*".toList,
          "*".toList, "*".toList, "*".toList, "*".toList, "*".toList,
          "*".toList]) = Except.ok c) ∧
    CPE23.from_str ("CPE:2.3:".toList ++
        joinColon ["a".toList, "v".toList, "p".toList, "*".toList, "*".toList,
          "*".toList, "*".toList, "*".toList, "*".toList, "*".toList,
          "*".toList]) = Except.error ParseErr.invalidPre ∧
    ∀ c : CPE23, ∃ restStr, CPE23.render c = "cpe:2.3:".toList ++ restStr :=
  cpe23_upper_amended "a".toList "v".toList "p".toList "*".toList "*".toList
    "*".toList "*".toList "*".toList "*".toList "*".toList "*".toList
    (Or.inr (Or.inr rfl)) (by decide) (by decide) (by decide) (by decide)
    (by decide) (by decide) (by decide) (by decide) (by decide) (by decide)

/-- C8: when the version string fails the validation comparison against the
sentinel `1.0.0` under `Ne`, `query` returns exactly the
"invalid version string" error, the cache is unchanged, and neither
`db.search` nor `cache.put` is ever invoked. -/
theorem query_invalid_version_no_storage {M S : Type} (env : SearchEnv M S)
    (q : Query) (cache : LruCache Query (List M)) (ver : List Char)
    (hver : q.version = some ver)
    (hcmp : env.compare_to ver ("1.0.0".toList) Cmp.Ne = none) :
    query env q cache =
      (Except.error SearchErr.invalidVersionString, cache, ⟨0, 0⟩) := by
  simp only [query, hver]
  rw [hcmp]
  simp

/-- C8 witness: the concrete invalid query touches neither storage nor
cache. -/
theorem query_invalid_version_no_storage_witness :
    query failEnv badQuery emptyCache =
      (Except.error SearchErr.invalidVersionString, emptyCache, ⟨0, 0⟩) :=
  query_invalid_version_no_storage failEnv badQuery emptyCache
    ("not a version".toList) rfl rfl

/-- C9: when the same query is run twice in sequence, the first call starting
from a cache that does not hold it and succeeding, the first call consulted
storage exactly once and the second call is served from the cache: it returns
the structurally identical list, performs no storage fetch and no cache
put. -/
theorem query_second_call_cached {M S : Type} (env : SearchEnv M S) (q : Query)
    (c0 c1 : LruCache Query (List M)) (r1 : List M) (e1 : Effects)
    (hcap : 0 < c0.cap)
    (hmiss : (LruCache.get c0 q).1 = none)
    (hfirst : query env q c0 = (Except.ok r1, c1, e1)) :
    e1.storageFetches = 1 ∧
      ∃ c2, query env q c1 = (Except.ok r1, c2, ⟨0, 0⟩) := by
  have hget := LruCache.get_miss_eq c0 q hmiss
  simp only [query, hget] at hfirst
  split at hfirst
  · exact absurd hfirst (by simp)
  · rename_i hv
    split at hfirst
    · exact absurd hfirst (by simp)
    · rename_i candidates hdb
      split at hfirst
      · exact absurd hfirst (by simp)
      · rename_i sources hdes
        rw [Prod.ext_iff, Prod.ext_iff] at hfirst
        obtain ⟨hr, hcache, heff⟩ := hfirst
        replace hr : collectMatches env q sources candidates = r1 :=
          Except.ok.inj hr
        subst hr
        subst hcache
        subst heff
        refine ⟨rfl, ?_⟩
        obtain ⟨c2, hc2⟩ :=
          LruCache.get_put_self c0 q (collectMatches env q sources candidates)
            hcap
        refine ⟨c2, ?_⟩
        simp only [query]
        rw [if_neg hv, hc2]

/-- C9 witness: a concrete pair of identical queries against a spy
environment — one storage fetch in total, and the second call is a pure cache
hit. -/
theorem query_second_call_cached_witness :
    (⟨1, 1⟩ : Effects).storageFetches = 1 ∧
      ∃ c2, query okEnv okQuery (LruCache.put emptyCache okQuery []) =
        (Except.ok ([] : List Unit), c2, ⟨0, 0⟩) :=
  query_second_call_cached okEnv okQuery emptyCache
    (LruCache.put emptyCache okQuery []) [] ⟨1, 1⟩ (by decide) rfl rfl
